import Mathlib

/-!
Verification of the loken hierarchies library: a shallow embedding of the
node linking/ownership model (node.ts), the graph control signal
(traverse-types.ts), the hierarchy registry (hierarchy.ts), node assembly
(nodes.ts) and the sequence signal, together with proofs about the
behaviour the specification claims.

Node objects are addressed by natural-number ids; a `Forest` maps each id
to the backing fields of the corresponding `Node` object.  The wrapped
item of a node is its id (the claims under scrutiny all use identity
payloads).  JavaScript exceptions are modelled with `Except String`;
operations that mutate before throwing return the mutated state next to
the error.

The repository files traverse-graph.ts, traverse-sequence.ts, stack.ts and
queue.ts are not under src; the definitions embedding them are modelled
from the spec and say so in their doc comments.
-/

/-- An owner value usable as a node brand.  `hasEquals` records whether the
JavaScript object carries an `Equals` method (the C#-style method that
`Node.isBrandCompatible` invokes); plain objects, among them `Hierarchy`
instances, do not.  `oid` is the payload such a method would compare. -/
structure Owner where
  oid : Nat
  hasEquals : Bool
deriving DecidableEq, Repr

/-- Result of the call `a.Equals(b)` in JavaScript: a thrown `TypeError`
when `a` has no `Equals` method, otherwise the owner equality contract
applied to the two owners. -/
def Owner.jsEquals (a b : Owner) : Except String Bool :=
  if a.hasEquals then Except.ok (a.oid == b.oid)
  else Except.error "TypeError: this.brand.Equals is not a function"

/-- Backing fields of one `Node` object (node.ts): `#parent`, `#children`
(insertion-ordered, duplicate-free, with `undefined` and the empty set both
represented by `[]` since the `children` getter renders both as `[]`), and
`#brand`. -/
structure NodeData where
  parent : Option Nat
  childList : List Nat
  brand : Option Owner
deriving DecidableEq, Repr

/-- The freshly constructed node: unlinked and unbranded. -/
def NodeData.fresh : NodeData := ⟨none, [], none⟩

/-- A collection of node objects addressed by id. -/
def Forest := Nat → NodeData

/-- Replace the backing fields of node `i`. -/
def setN (f : Forest) (i : Nat) (d : NodeData) : Forest :=
  fun j => if j = i then d else f j

/-- Node.isRoot: a node is a root when there is no parent. -/
def isRoot (f : Forest) (i : Nat) : Bool :=
  (f i).parent.isNone

/-- Node.isLeaf: a node is a leaf when there are no children. -/
def isLeaf (f : Forest) (i : Nat) : Bool :=
  (f i).childList.isEmpty

/-- Node.isBranded: some other entity owns the node. -/
def isBranded (f : Forest) (i : Nat) : Bool :=
  (f i).brand.isSome

/-- Node.isBrandCompatible (node.ts lines 88-95): both brands undefined
gives true, exactly one undefined gives false, and with both defined the
source evaluates `this.#brand.Equals(other.#brand)` - which throws a
`TypeError` when the brand in the `this` position has no `Equals` method. -/
def isBrandCompatible (f : Forest) (a b : Nat) : Except String Bool :=
  match (f a).brand with
  | none => Except.ok ((f b).brand.isNone)
  | some ba =>
    match (f b).brand with
    | none => Except.ok false
    | some bb => ba.jsEquals bb

/-- Node.brand (node.ts lines 101-111): rejects an undefined brand and an
already branded node, otherwise stores the brand.  The returned `DeBrand`
delegate is modelled by `deBrand` below. -/
def brandNode (f : Forest) (i : Nat) (b : Option Owner) : Except String Forest :=
  match b with
  | none => Except.error "The brand cannot be 'undefined'."
  | some o =>
    match (f i).brand with
    | some _ => Except.error "Must clear existing brand using the 'DeBrand' delegate before you can re-brand a node."
    | none => Except.ok (setN f i { f i with brand := some o })

/-- The `DeBrand` delegate returned by Node.brand: the closure
`() => this.#brand = undefined`, which unconditionally clears the brand of
the node that produced it. -/
def deBrand (f : Forest) (i : Nat) : Forest :=
  setN f i { f i with brand := none }

/-- The callback run of `nodes.every(node => node.isBrandCompatible(this))`
inside Node.attach: stops at the first false, and a `TypeError` thrown by
`isBrandCompatible` propagates. -/
def everyCompat (f : Forest) (p : Nat) : List Nat → Except String Bool
  | [] => Except.ok true
  | c :: rest =>
    match isBrandCompatible f c p with
    | Except.error e => Except.error e
    | Except.ok false => Except.ok false
    | Except.ok true => everyCompat f p rest

/-- Adding a node to a JavaScript `Set`: appended unless already present. -/
def addChildRef (l : List Nat) (c : Nat) : List Nat :=
  if c ∈ l then l else l ++ [c]

/-- One iteration of the mutation loop of Node.attach:
`this.#children.add(child); child.#parent = this`. -/
def linkChild (f : Forest) (p c : Nat) : Forest :=
  let f1 := setN f p { f p with childList := addChildRef (f p).childList c }
  setN f1 c { f1 c with parent := some p }

/-- Node.attach (node.ts lines 118-138): requires a non-empty argument
list, every argument a root, and every argument brand-compatible with the
target; all checks precede any mutation.  On failure the forest is
returned unchanged next to the thrown error. -/
def nodeAttach (f : Forest) (p : Nat) (cs : List Nat) : Except String Unit × Forest :=
  if cs.isEmpty then
    (Except.error "Must provide one or more 'children'.", f)
  else if (cs.all fun c => isRoot f c) = false then
    (Except.error "Must all be without a 'parent' before attaching to another.", f)
  else
    match everyCompat f p cs with
    | Except.error e => (Except.error e, f)
    | Except.ok false => (Except.error "Must all have a compatible brand.", f)
    | Except.ok true => (Except.ok (), cs.foldl (fun acc c => linkChild acc p c) f)

/-- Node.detachSelf (node.ts lines 165-183): rejects a root and a branded
node, then removes the node from its parent's child set and clears the
parent pointer. -/
def nodeDetachSelf (f : Forest) (i : Nat) : Except String Unit × Forest :=
  match (f i).parent with
  | none => (Except.error "Can't detach a root node as there's nothing to detach it from.", f)
  | some p =>
    if (f i).brand.isSome then
      (Except.error "Must clear brand using the 'DeBrand' delegate before you can detach a branded node.", f)
    else if (f p).childList.isEmpty || !((f p).childList.contains i) then
      (Except.error "Invalid object state: It should not be possible for the node not to be a child of its parent!.", f)
    else
      let f1 := setN f p { f p with childList := (f p).childList.erase i }
      (Except.ok (), setN f1 i { f1 i with parent := none })

/-- Frontier buffer attach.  Modelled from the spec: stack.ts and queue.ts
are not under src.  Spec 4.1 makes `attach` a bulk append and `detach` a
single possibly-failing removal, with a FIFO queue backing breadth-first
and a LIFO stack backing depth-first traversal.  The buffer is a list whose
head is the next item to detach; the queue therefore appends a batch at the
back while the stack pushes the batch so that the batch's first item is on
top, which realises the spec's depth-first order ([A, B, D, C] in section
8) together with its sibling insertion-order rule (4.3). -/
def bufAttach (isDepthFirst : Bool) (buf items : List Nat) : List Nat :=
  if isDepthFirst then items ++ buf else buf ++ items

/-- Frontier buffer detach (`tryDetach`): the next item and the remaining
buffer, or failure on an empty buffer. -/
def bufDetach (buf : List Nat) : Option (Nat × List Nat) :=
  match buf with
  | [] => none
  | x :: rest => some (x, rest)

/-- State of GraphSignal (traverse-types.ts lines 37-154): the optional
visited set (insertion order is unobservable, the model conses), the
traversal mode, the frontier buffer, and the depth/count bookkeeping.
`branchCount` entries are integers because the source decrements them
below zero transiently in no modelled run but is typed on numbers. -/
structure GraphSignal where
  visited : Option (List Nat)
  isDepthFirst : Bool
  buf : List Nat
  depth : Int
  branchCount : List Int
  depthCount : Nat
  count : Nat
  skipped : Bool
deriving Repr

/-- GraphSignal constructor (traverse-types.ts lines 71-87). -/
def GraphSignal.init (roots : List Nat) (detectCycles : Bool) (isDepthFirst : Bool) : GraphSignal :=
  { visited := if detectCycles then some [] else none
    isDepthFirst := isDepthFirst
    buf := bufAttach isDepthFirst [] roots
    depth := 0
    branchCount := if isDepthFirst then [(roots.length : Int)] else []
    depthCount := roots.length
    count := 0
    skipped := false }

/-- GraphSignal.next (traverse-types.ts lines 54-59): append the nodes to
the frontier and, in depth-first mode, push a branch-count frame when the
batch is non-empty. -/
def GraphSignal.signalNext (s : GraphSignal) (nodes : List Nat) : GraphSignal :=
  let s1 := { s with buf := bufAttach s.isDepthFirst s.buf nodes }
  if s.isDepthFirst && !nodes.isEmpty then
    { s1 with branchCount := (nodes.length : Int) :: s1.branchCount }
  else s1

/-- GraphSignal.skip: suppress the current node from the yielded output. -/
def GraphSignal.skip (s : GraphSignal) : GraphSignal :=
  { s with skipped := true }

/-- GraphSignal.end: clear the frontier, terminating the traversal. -/
def GraphSignal.endTraversal (s : GraphSignal) : GraphSignal :=
  { s with buf := [] }

/-- GraphSignal.shouldYield. -/
def GraphSignal.shouldYield (s : GraphSignal) : Bool :=
  !s.skipped

/-- The branch-count popping loop of GraphSignal.cleanup: pop frames while
the top frame is exactly zero. -/
def dropZeros : List Int → List Int
  | [] => []
  | x :: rest => if x = 0 then dropZeros rest else x :: rest

/-- GraphSignal.cleanup (traverse-types.ts lines 93-106). -/
def GraphSignal.cleanup (s : GraphSignal) : GraphSignal :=
  let s1 := if s.isDepthFirst then { s with branchCount := dropZeros s.branchCount } else s
  if s1.skipped then s1 else { s1 with count := s1.count + 1 }

/-- GraphSignal.tryGetNextInternal (traverse-types.ts lines 128-151):
detach one node from the frontier, reset the skip flag and update the
depth bookkeeping for the chosen mode. -/
def GraphSignal.tryGetNextInternal (s : GraphSignal) : Option Nat × GraphSignal :=
  match bufDetach s.buf with
  | none => (none, s)
  | some (v, rest) =>
    let s1 := { s with buf := rest, skipped := false }
    let s2 :=
      if s1.isDepthFirst then
        { s1 with
          depth := (s1.branchCount.length : Int) - 1
          branchCount :=
            match s1.branchCount with
            | [] => []
            | t :: r => (t - 1) :: r }
      else
        if s1.depthCount = 0 then
          { s1 with depth := s1.depth + 1, depthCount := rest.length }
        else
          { s1 with depthCount := s1.depthCount - 1 }
    (some v, s2)

/-- The cycle-suppression loop inside GraphSignal.tryGetNext (lines
108-126): pull internally until a node outside the visited set appears,
silently discarding already-visited nodes; the fuel is instantiated with
the frontier length, which bounds the number of internal pulls. -/
def tryGetNextLoop : Nat → GraphSignal → List Nat → Option Nat × GraphSignal
  | 0, s, _ => (none, s)
  | fuel + 1, s, vs =>
    match s.tryGetNextInternal with
    | (none, s1) => (none, s1)
    | (some v, s1) =>
      if v ∈ vs then tryGetNextLoop fuel s1 vs
      else (some v, { s1 with visited := some (v :: vs) })

/-- GraphSignal.tryGetNext: the plain internal pull without cycle
detection, the visited-filtering loop with it. -/
def GraphSignal.tryGetNext (s : GraphSignal) : Option Nat × GraphSignal :=
  match s.visited with
  | none => s.tryGetNextInternal
  | some vs => tryGetNextLoop s.buf.length s vs

/-- Modelled from the spec: the graph traversal driver (traverse-graph.ts
is not under src).  Spec 4.4: pull a candidate from the signal, invoke the
consumer callback or the default, yield the node unless skipped, clean up,
and repeat until the frontier is exhausted; spec 4.3: with no callback the
default behaviour is to always yield and advance into the node's intrinsic
children via the ambient next function.  This loop is the no-callback
driver; `fuel` bounds the number of iterations, standing in for the
run-to-completion of the lazy JavaScript generator. -/
def traverseLoop (next : Nat → List Nat) : Nat → GraphSignal → List Nat
  | 0, _ => []
  | fuel + 1, s =>
    match s.tryGetNext with
    | (none, _) => []
    | (some v, s1) =>
      let s2 := s1.signalNext (next v)
      let out := if s2.shouldYield then [v] else []
      out ++ traverseLoop next fuel s2.cleanup

/-- traverseGraph with the default (no-callback) signal: drives a
GraphSignal built from the options. -/
def traverseGraph (next : Nat → List Nat) (roots : List Nat)
    (detectCycles : Bool) (isDepthFirst : Bool) (fuel : Nat) : List Nat :=
  traverseLoop next fuel (GraphSignal.init roots detectCycles isDepthFirst)

/-- Node.traverseDescendants (node.ts lines 237-243): roots are the node
itself, or its children under excludeSelf; next follows `node.children`;
cycle detection is not requested. -/
def traverseDescendants (f : Forest) (i : Nat) (excludeSelf : Bool)
    (isDepthFirst : Bool) (fuel : Nat) : List Nat :=
  traverseGraph (fun n => (f n).childList)
    (if excludeSelf then (f i).childList else [i]) false isDepthFirst fuel

/-- Modelled from the spec: the sequence traversal driver
(traverse-sequence.ts is not under src).  Spec 4.2: a lazy forward-only
walk from `first` (inclusive), applying `next` until it yields nothing;
this is the observable behaviour of SequenceSignal driven with no
callback. -/
def traverseSequence (next : Nat → Option Nat) : Nat → Option Nat → List Nat
  | 0, _ => []
  | _ + 1, none => []
  | fuel + 1, some x => x :: traverseSequence next fuel (next x)

/-- Node.traverseAncestors (node.ts lines 220-225): first is the node
itself, or its parent under excludeSelf; next follows `node.parent`. -/
def traverseAncestors (f : Forest) (i : Nat) (excludeSelf : Bool) (fuel : Nat) : List Nat :=
  traverseSequence (fun n => (f n).parent) fuel
    (if excludeSelf then (f i).parent else some i)

/-- The descendant loop of Node.dismantle (node.ts lines 202-203) driven
lazily: per iteration the driver pulls a node from the signal, the default
callback enqueues that node's current children (read from the live,
partially mutated forest, before the loop body runs), and the loop body
calls `descendant.detachSelf()`, whose thrown error aborts the loop with
the mutations performed so far kept. -/
def dismantleDescLoop : Nat → Forest → GraphSignal → Except String Unit × Forest
  | 0, f, _ => (Except.error "<out of fuel>", f)
  | fuel + 1, f, s =>
    match s.tryGetNext with
    | (none, _) => (Except.ok (), f)
    | (some v, s1) =>
      let s2 := s1.signalNext (f v).childList
      match nodeDetachSelf f v with
      | (Except.error e, f1) => (Except.error e, f1)
      | (Except.ok _, f1) => dismantleDescLoop fuel f1 s2.cleanup

/-- Node.dismantle (node.ts lines 195-206): when ancestry is included and
the node is not a root, detach the node and recursively dismantle the
former parent first; then cascade `detachSelf` over the proper descendants
via a breadth-first traversal with the node's children as roots.  Errors
thrown part-way leave the mutations already performed in place, exactly as
a JavaScript exception would. -/
def dismantleGo : Nat → Forest → Nat → Bool → Except String Unit × Forest
  | 0, f, _, _ => (Except.error "<out of fuel>", f)
  | fuel + 1, f, i, includeAncestry =>
    match (f i).parent, includeAncestry with
    | some p, true =>
      match nodeDetachSelf f i with
      | (Except.error e, f1) => (Except.error e, f1)
      | (Except.ok _, f1) =>
        match dismantleGo fuel f1 p true with
        | (Except.error e, f2) => (Except.error e, f2)
        | (Except.ok _, f2) =>
          dismantleDescLoop (fuel + 1) f2 (GraphSignal.init (f2 i).childList false false)
    | _, _ =>
      dismantleDescLoop (fuel + 1) f (GraphSignal.init (f i).childList false false)

/-- Node.dismantle entry point. -/
def dismantle (f : Forest) (i : Nat) (includeAncestry : Bool) (fuel : Nat) :
    Except String Unit × Forest :=
  dismantleGo fuel f i includeAncestry

/-- Backing fields of a Hierarchy (hierarchy.ts lines 19-24) over identity
payloads: `#roots` as a list of node ids and the `#nodes` lookup map as the
insertion-ordered list of indexed ids (with identity `identify`, the key
and the indexed node coincide; the `#debrand` map stores the `deBrand`
delegates, which carry no observable state beyond the node id).  `hid`
identifies the Hierarchy instance itself, which is used as the brand owner
and, being a plain object, has no `Equals` method. -/
structure Hier where
  hid : Nat
  rootsH : List Nat
  members : List Nat
deriving DecidableEq, Repr

/-- The owner value `this` that Hierarchy#addNodes brands nodes with. -/
def Hier.owner (h : Hier) : Owner := ⟨h.hid, false⟩

/-- A JavaScript `Map.set`: a fresh key is appended, an existing key keeps
its position (and here its value, the id itself). -/
def addMember (m : List Nat) (i : Nat) : List Nat :=
  if i ∈ m then m else m ++ [i]

/-- The loop body of Hierarchy#addNodes over the already-computed
traversal order: brand each node with the hierarchy (which throws on an
already-branded node) and index it. -/
def addNodesGo : List Nat → Forest → Hier → Except String Unit × Forest × Hier
  | [], f, h => (Except.ok (), f, h)
  | n :: rest, f, h =>
    match brandNode f n (some h.owner) with
    | Except.error e => (Except.error e, f, h)
    | Except.ok f1 => addNodesGo rest f1 { h with members := addMember h.members n }

/-- Hierarchy#addNodes (hierarchy.ts lines 94-103): traverse the attached
subtrees breadth-first and brand/index every reached node.  The loop body
touches only brands and the index, never parent or child links, so the
lazy traversal order may be computed up front. -/
def addNodes (f : Forest) (h : Hier) (ns : List Nat) (fuel : Nat) :
    Except String Unit × Forest × Hier :=
  addNodesGo (traverseGraph (fun n => (f n).childList) ns false false fuel) f h

/-- Hierarchy.attachRoot (hierarchy.ts lines 62-73): requires every
supplied node be a root, then indexes/brands the reachable subtrees and
appends to the root list. -/
def hierAttachRoot (f : Forest) (h : Hier) (ns : List Nat) (fuel : Nat) :
    Except String Unit × Forest × Hier :=
  if (ns.all fun n => isRoot f n) = false then
    (Except.error "The 'roots' all be roots!", f, h)
  else
    match addNodes f h ns fuel with
    | (Except.error e, f1, h1) => (Except.error e, f1, h1)
    | (Except.ok _, f1, h1) => (Except.ok (), f1, { h1 with rootsH := h1.rootsH ++ ns })

/-- Hierarchy.attach (hierarchy.ts lines 80-92), embedded exactly as
written: the guard is `if (this.#nodes.has(parentId)) throw ...`, i.e. the
reported error fires when the parent IS a member; when it is not, the
children are indexed and branded and then `this.#nodes.get(parentId)!`
yields `undefined` (unless one of the freshly indexed children carries the
parent id), so `parent.attach(nodes)` raises a `TypeError`. -/
def hierAttach (f : Forest) (h : Hier) (parentId : Nat) (cs : List Nat) (fuel : Nat) :
    Except String Unit × Forest × Hier :=
  if parentId ∈ h.members then
    (Except.error "The 'parentId' must be a hierarchy member.", f, h)
  else
    match addNodes f h cs fuel with
    | (Except.error e, f1, h1) => (Except.error e, f1, h1)
    | (Except.ok _, f1, h1) =>
      if parentId ∈ h1.members then
        match nodeAttach f1 parentId cs with
        | (Except.error e, f2) => (Except.error e, f2, h1)
        | (Except.ok _, f2) => (Except.ok (), f2, h1)
      else
        (Except.error "TypeError: Cannot read properties of undefined (reading 'attach')", f1, h1)

/-- Hierarchy.getNode (hierarchy.ts lines 39-45): the indexed node for the
id, or the not-a-member error; with identity payloads the node is the id. -/
def hierGetNode (h : Hier) (id : Nat) : Except String Nat :=
  if id ∈ h.members then Except.ok id else Except.error "The 'id' must be a hierarchy member."

/-- Hierarchy.getAncestorIds (hierarchy.ts lines 124-126): resolve the
node, walk its ancestor chain, and project ids (the identity projection
here). -/
def hierGetAncestorIds (f : Forest) (h : Hier) (id : Nat) (excludeSelf : Bool)
    (fuel : Nat) : Except String (List Nat) :=
  match hierGetNode h id with
  | Except.error e => Except.error e
  | Except.ok n => Except.ok (traverseAncestors f n excludeSelf fuel)

/-- One child-map entry processed by the inner loop of Nodes.assembleIds
(nodes.ts lines 27-35): attach each child to the parent (propagating any
thrown error) and delete it from the candidate-root map. -/
def assembleChildren (p : Nat) : List Nat → Forest → List Nat → Except String (Forest × List Nat)
  | [], f, roots => Except.ok (f, roots)
  | c :: cs, f, roots =>
    match nodeAttach f p [c] with
    | (Except.error e, _) => Except.error e
    | (Except.ok _, f1) => assembleChildren p cs f1 (roots.erase c)

/-- The outer loop of Nodes.assembleIds over the child-map entries. -/
def assembleGo : List (Nat × List Nat) → Forest → List Nat → Except String (Forest × List Nat)
  | [], f, roots => Except.ok (f, roots)
  | (p, cs) :: rest, f, roots =>
    match assembleChildren p cs f roots with
    | Except.error e => Except.error e
    | Except.ok (f1, roots1) => assembleGo rest f1 roots1

/-- Nodes.assembleIds (nodes.ts lines 19-40) over a child map given as an
insertion-ordered list of (parent id, child ids) entries: every mentioned
id denotes a node wrapping that id (creation order is unobservable since
fresh nodes are identical), the candidate roots start as the keys in
insertion order, and each attached child is removed from the candidates.
Returns the final forest and the surviving root ids. -/
def assembleIds (cm : List (Nat × List Nat)) : Except String (Forest × List Nat) :=
  assembleGo cm (fun _ => NodeData.fresh) (cm.map Prod.fst)

/-- A store of JavaScript array objects, modelling reference identity: an
array value held by a field or a caller is a handle (an index into the
store), and mutating in place writes through the handle. -/
abbrev ArrStore := List (List Nat)

/-- Allocate a fresh array with the given contents, returning its handle. -/
def allocArr (st : ArrStore) (contents : List Nat) : Nat × ArrStore :=
  (st.length, st ++ [contents])

/-- Read the array behind a handle. -/
def readArr (st : ArrStore) (hd : Nat) : List Nat :=
  st.getD hd []

/-- Mutate the array behind a handle in place (push, splice and the like
replace its contents). -/
def writeArr (st : ArrStore) (hd : Nat) (contents : List Nat) : ArrStore :=
  st.set hd contents

/-- The getter `Node.children` (node.ts lines 47-49): spread the internal
`#children` collection into a freshly allocated array and hand out that
copy (the undefined case spreads to the same empty array the default
read yields). -/
def nodeChildrenGetter (st : ArrStore) (childrenHandle : Nat) : Nat × ArrStore :=
  allocArr st (readArr st childrenHandle)

/-- The getter `Hierarchy.roots` (hierarchy.ts line 30): a shallow clone
of the internal `#roots` array. -/
def hierarchyRootsGetter (st : ArrStore) (rootsHandle : Nat) : Nat × ArrStore :=
  allocArr st (readArr st rootsHandle)

/-- The getter `Hierarchy.nodes` (hierarchy.ts line 32): a fresh array
spread from `#nodes.values()`. -/
def hierarchyNodesGetter (st : ArrStore) (valuesHandle : Nat) : Nat × ArrStore :=
  allocArr st (readArr st valuesHandle)

/-- A hierarchy that already indexed node 0 and branded it with itself
(instance id 7), as `attachRoot([node 0])` leaves things. -/
def C1forest : Forest := fun i =>
  if i = 0 then ⟨none, [], some ⟨7, false⟩⟩ else NodeData.fresh

/-- The Hier value matching `C1forest`. -/
def C1hier : Hier := ⟨7, [0], [0]⟩

/-- Two nodes branded with the same plain-object owner (such as one
Hierarchy instance, which carries no `Equals` method). -/
def C2forest : Forest := fun i =>
  if i = 0 then ⟨none, [], some ⟨5, false⟩⟩
  else if i = 1 then ⟨none, [], some ⟨5, false⟩⟩
  else NodeData.fresh

/-- Two nodes branded with equal owners that do provide `Equals`. -/
def C2forestEq : Forest := fun i =>
  if i = 0 then ⟨none, [], some ⟨5, true⟩⟩
  else if i = 1 then ⟨none, [], some ⟨5, true⟩⟩
  else NodeData.fresh

/-- A parent (node 0) with an unbranded leaf child 1 and a leaf child 2
branded with the owner `o`. -/
def C3forest (o : Owner) : Forest := fun i =>
  if i = 0 then ⟨none, [1, 2], none⟩
  else if i = 1 then ⟨some 0, [], none⟩
  else if i = 2 then ⟨some 0, [], some o⟩
  else NodeData.fresh

/-- The child map {A: [B, C], B: [D]} with A, B, C, D as 0, 1, 2, 3. -/
def C4childMap : List (Nat × List Nat) := [(0, [1, 2]), (1, [3])]

/-- Outcome of assembling the C4 child map. -/
def C4asm : Except String (Forest × List Nat) := assembleIds C4childMap

/-- The assembled node graph. -/
def C4forest : Forest :=
  match C4asm with
  | Except.ok (f, _) => f
  | Except.error _ => fun _ => NodeData.fresh

/-- The surviving roots of the assembly. -/
def C4roots : List Nat :=
  match C4asm with
  | Except.ok (_, r) => r
  | Except.error _ => []

/-- Whether the assembly succeeded. -/
def C4ok : Bool :=
  match C4asm with
  | Except.ok _ => true
  | Except.error _ => false

/-- The chain A -> B -> D (as 0 -> 1 -> 2) built with Node.attach before
any hierarchy involvement. -/
def C6forest0 : Forest :=
  (nodeAttach ((nodeAttach (fun _ => NodeData.fresh) 0 [1]).2) 1 [2]).2

/-- The result of `attachRoot([A])` on a fresh identity hierarchy. -/
def C6res : Except String Unit × Forest × Hier :=
  hierAttachRoot C6forest0 ⟨3, [], []⟩ [0] 10

/-- Forest after attachRoot. -/
def C6forest : Forest := C6res.2.1

/-- Hierarchy after attachRoot. -/
def C6hier : Hier := C6res.2.2

/-- A node 0 that already has the child 5, next to the fresh root 1. -/
def C8exampleForest : Forest := fun i =>
  if i = 0 then ⟨none, [5], none⟩
  else if i = 5 then ⟨some 0, [], none⟩
  else NodeData.fresh

/-- The cycle-suppressing pull, reformulated on the bare frontier: drop
already-visited nodes from the front of the queue and hand out the first
fresh one.  Reference form of `tryGetNextLoop`, related to it by
`tryGetNextLoop_spec`. -/
def pullFresh (vs : List Nat) : List Nat → Option (Nat × List Nat)
  | [] => none
  | x :: rest => if x ∈ vs then pullFresh vs rest else some (x, rest)

/-- The breadth-first, cycle-suppressed traversal on the bare
(frontier, visited) state.  Reference form of `traverseLoop`, related to
it by `traverseLoop_eq_bfsRef`; the bookkeeping counters of GraphSignal do
not influence the yielded sequence. -/
def bfsRef (next : Nat → List Nat) : Nat → List Nat → List Nat → List Nat
  | 0, _, _ => []
  | fuel + 1, buf, vs =>
    match pullFresh vs buf with
    | none => []
    | some (v, rest) => v :: bfsRef next fuel (rest ++ next v) (v :: vs)

/-- Reachability in the graph with edge function `next` from the given
start nodes: the transitive closure of followed edges, including the
starts themselves. -/
inductive ReachG (next : Nat → List Nat) (roots : List Nat) : Nat → Prop
  | root (v : Nat) : v ∈ roots → ReachG next roots v
  | step (u v : Nat) : ReachG next roots u → v ∈ next u → ReachG next roots v

/-- The spec's back-edge example: root -> A -> B -> A with root, A, B as
0, 1, 2. -/
def cycNext : Nat → List Nat := fun n =>
  if n = 0 then [1] else if n = 1 then [2] else if n = 2 then [1] else []

theorem setN_self (f : Forest) (i : Nat) (d : NodeData) : setN f i d i = d := by
  simp [setN]

theorem setN_other (f : Forest) (i j : Nat) (d : NodeData) (h : j ≠ i) :
    setN f i d j = f j := by
  simp [setN, h]

/-- C1: the claim says `Hierarchy.attach(parentId, children)` fails with a
reported error if and only if `parentId` is not an indexed member, and
otherwise delegates the attach and indexes the subtree.  The source guard
reads `if (this.#nodes.has(parentId)) throw new Error("The 'parentId' must
be a hierarchy member.")` - the negation is missing - so the call throws
precisely when the parent IS a member (first conjunct, the indexed id 0),
and on a non-member parent it falls through to
`this.#nodes.get(parentId)!.attach(...)` on `undefined` and throws a
TypeError instead of succeeding or reporting the membership error (second
conjunct).  The error message contradicts the guard, so this is a bug in
the code rather than in the claim. -/
theorem C1_hierarchy_attach_membership_guard_inverted :
    (hierAttach C1forest C1hier 0 [1] 10).1 =
      Except.error "The 'parentId' must be a hierarchy member." ∧
    (hierAttach C1forest C1hier 5 [1] 10).1 =
      Except.error "TypeError: Cannot read properties of undefined (reading 'attach')" := by
  exact ⟨rfl, rfl⟩

/-- C2: the claim says `isBrandCompatible` returns - and does not throw -
for any two nodes branded with equal owners, including two nodes branded
with the same owner object.  The source computes
`this.#brand.Equals(other.#brand)`, a C#-ism: a plain JavaScript object
has no `Equals` method, so for two nodes branded with the same Hierarchy
instance (the library's own branding owner) the call throws a TypeError
(first conjunct); the intended result is produced only when the owner
itself supplies `Equals` (second conjunct).  The code therefore breaks its
own caller `Hierarchy.attach -> Node.attach -> isBrandCompatible`: a code
bug, not a spec error. -/
theorem C2_isBrandCompatible_throws_for_plain_object_owner :
    isBrandCompatible C2forest 0 1 =
      Except.error "TypeError: this.brand.Equals is not a function" ∧
    isBrandCompatible C2forestEq 0 1 = Except.ok true := by
  exact ⟨rfl, rfl⟩

/-- C3 counterexample: the claim says that when any node in the affected
set of `dismantle` is branded, the operation aborts with a reported error
BEFORE performing any mutation.  Here node 2 in the affected set is
branded and `dismantle(false)` does report the brand error, yet node 1 -
whose detach preceded the failure in the cascade - has lost its parent
link: a parent/child link did change. -/
theorem C3_counterexample_dismantle_mutates_before_brand_error :
    isBranded (C3forest ⟨9, true⟩) 2 = true ∧
    (dismantle (C3forest ⟨9, true⟩) 0 false 20).1 =
      Except.error "Must clear brand using the 'DeBrand' delegate before you can detach a branded node." ∧
    ((dismantle (C3forest ⟨9, true⟩) 0 false 20).2 1).parent = none ∧
    (C3forest ⟨9, true⟩ 1).parent = some 0 := by
  exact ⟨rfl, rfl, rfl, rfl⟩

/-- C3 amended: a brand violation in the affected set makes `dismantle`
abort with the reported brand error when the branded node's detach is
attempted, but detaches already performed in the cascade are not rolled
back: the unbranded child has been unlinked while the branded child keeps
its parent link and its brand.  (The spec's own design note 9 records this
partial-effect-on-failure behaviour of the source.) -/
theorem C3_amended_dismantle_error_keeps_partial_mutation (o : Owner) :
    (dismantle (C3forest o) 0 false 20).1 =
      Except.error "Must clear brand using the 'DeBrand' delegate before you can detach a branded node." ∧
    ((dismantle (C3forest o) 0 false 20).2 1).parent = none ∧
    ((dismantle (C3forest o) 0 false 20).2 2).parent = some 0 ∧
    ((dismantle (C3forest o) 0 false 20).2 2).brand = some o := by
  exact ⟨rfl, rfl, rfl, rfl⟩

/-- Witness for the amended C3 theorem at a concrete owner. -/
theorem C3_amended_dismantle_error_keeps_partial_mutation_witness :
    (dismantle (C3forest ⟨4, false⟩) 0 false 20).1 =
      Except.error "Must clear brand using the 'DeBrand' delegate before you can detach a branded node." ∧
    ((dismantle (C3forest ⟨4, false⟩) 0 false 20).2 1).parent = none ∧
    ((dismantle (C3forest ⟨4, false⟩) 0 false 20).2 2).parent = some 0 ∧
    ((dismantle (C3forest ⟨4, false⟩) 0 false 20).2 2).brand = some ⟨4, false⟩ :=
  C3_amended_dismantle_error_keeps_partial_mutation ⟨4, false⟩

/-- C4: assembling the child map {A: [B, C], B: [D]} succeeds and yields
the single root A with children {B, C} in insertion order and B with child
D; breadth-first descendant traversal from A yields [A, B, C, D] (all of
depth 0, then depth 1, then depth 2) and depth-first yields [A, B, D, C]
(the branch below B is exhausted before the sibling C). -/
theorem C4_childmap_assembly_and_traversal_orders :
    C4ok = true ∧ C4roots = [0] ∧
    (C4forest 0).parent = none ∧
    (C4forest 0).childList = [1, 2] ∧
    (C4forest 1).childList = [3] ∧
    (C4forest 2).childList = [] ∧
    (C4forest 3).childList = [] ∧
    traverseDescendants C4forest 0 false false 20 = [0, 1, 2, 3] ∧
    traverseDescendants C4forest 0 false true 20 = [0, 1, 3, 2] := by
  exact ⟨rfl, rfl, rfl, rfl, rfl, rfl, rfl, rfl, rfl⟩

/-- C6: on an identity hierarchy holding the chain A -> B -> D,
`getAncestorIds({id: D})` returns [D, B, A] - self-inclusive, nearest
ancestor first - and with excludeSelf it returns [B, A]; the walk starts
at the resolved node (or its parent under excludeSelf), follows parent
links and stops at the first node with no parent (last conjunct: from the
root A itself the walk is just [A]). -/
theorem C6_ancestor_ids_self_inclusive_nearest_first :
    C6res.1 = Except.ok () ∧
    hierGetAncestorIds C6forest C6hier 2 false 10 = Except.ok [2, 1, 0] ∧
    hierGetAncestorIds C6forest C6hier 2 true 10 = Except.ok [1, 0] ∧
    hierGetAncestorIds C6forest C6hier 0 false 10 = Except.ok [0] := by
  exact ⟨rfl, rfl, rfl, rfl⟩

/-- C9: the `DeBrand` delegate returned by Node.brand is the closure
`() => this.#brand = undefined`: applied to any state it leaves the node
unbranded (first conjunct), so a second call is a no-op rather than an
error (second conjunct), and a stale delegate applied after the node has
been released and re-branded by a different owner clears that newer brand
too (third conjunct). -/
theorem C9_debrand_unconditional_idempotent_and_stale (f : Forest) (i : Nat) :
    ((deBrand f i) i).brand = none ∧
    deBrand (deBrand f i) i = deBrand f i ∧
    (∀ o f2, brandNode (deBrand f i) i (some o) = Except.ok f2 →
      ((deBrand f2 i) i).brand = none) := by
  refine ⟨by simp [deBrand, setN], ?_, ?_⟩
  · funext j
    by_cases hj : j = i <;> simp [deBrand, setN, hj]
  · intro o f2 _
    simp [deBrand, setN]

/-- Witness for C9: a node branded with owner 8 after its first release,
through the exact `brandNode` success the third conjunct requires. -/
theorem C9_debrand_witness :
    ((deBrand (setN (deBrand (fun _ => NodeData.fresh) 0)
        0 { (deBrand ((fun _ => NodeData.fresh) : Forest) 0) 0 with brand := some ⟨8, true⟩ }) 0) 0).brand = none :=
  (C9_debrand_unconditional_idempotent_and_stale (fun _ => NodeData.fresh) 0).2.2
    ⟨8, true⟩ _ rfl

/-- Shared shape of the three copying getters: the handed-out handle is a
fresh allocation, it reads back the internal contents, and writing through
it leaves the internal array untouched. -/
theorem allocGetter_fresh (st : ArrStore) (ih : Nat) (hlt : ih < st.length)
    (mutated : List Nat) :
    (allocArr st (readArr st ih)).1 ≠ ih ∧
    readArr (allocArr st (readArr st ih)).2 (allocArr st (readArr st ih)).1 = readArr st ih ∧
    readArr (writeArr (allocArr st (readArr st ih)).2 (allocArr st (readArr st ih)).1 mutated) ih
      = readArr st ih := by
  refine ⟨Nat.ne_of_gt hlt, ?_, ?_⟩
  · simp [allocArr, readArr, List.getD]
  · simp [allocArr, readArr, writeArr, List.getD, List.getElem?_append, hlt]

/-- C10: `Node.children`, `Hierarchy.roots` and `Hierarchy.nodes` each
spread their internal collection into a freshly allocated array on every
access, so the returned handle differs from the internal one, reads back
the same contents, and mutating the array behind it (here: replacing its
contents, covering push and splice) leaves the internal collection
unchanged. -/
theorem C10_getters_return_fresh_shallow_copies (st : ArrStore) (ih : Nat)
    (hlt : ih < st.length) (mutated : List Nat) :
    ((nodeChildrenGetter st ih).1 ≠ ih ∧
      readArr (nodeChildrenGetter st ih).2 (nodeChildrenGetter st ih).1 = readArr st ih ∧
      readArr (writeArr (nodeChildrenGetter st ih).2 (nodeChildrenGetter st ih).1 mutated) ih
        = readArr st ih) ∧
    ((hierarchyRootsGetter st ih).1 ≠ ih ∧
      readArr (writeArr (hierarchyRootsGetter st ih).2 (hierarchyRootsGetter st ih).1 mutated) ih
        = readArr st ih) ∧
    ((hierarchyNodesGetter st ih).1 ≠ ih ∧
      readArr (writeArr (hierarchyNodesGetter st ih).2 (hierarchyNodesGetter st ih).1 mutated) ih
        = readArr st ih) := by
  have h1 := allocGetter_fresh st ih hlt mutated
  exact ⟨h1, ⟨h1.1, h1.2.2⟩, ⟨h1.1, h1.2.2⟩⟩

/-- Witness for C10 on a one-array store. -/
theorem C10_getters_witness :
    ((nodeChildrenGetter [[1, 2]] 0).1 ≠ 0 ∧
      readArr (nodeChildrenGetter [[1, 2]] 0).2 (nodeChildrenGetter [[1, 2]] 0).1
        = readArr [[1, 2]] 0 ∧
      readArr (writeArr (nodeChildrenGetter [[1, 2]] 0).2 (nodeChildrenGetter [[1, 2]] 0).1 [9]) 0
        = readArr [[1, 2]] 0) ∧
    ((hierarchyRootsGetter [[1, 2]] 0).1 ≠ 0 ∧
      readArr (writeArr (hierarchyRootsGetter [[1, 2]] 0).2 (hierarchyRootsGetter [[1, 2]] 0).1 [9]) 0
        = readArr [[1, 2]] 0) ∧
    ((hierarchyNodesGetter [[1, 2]] 0).1 ≠ 0 ∧
      readArr (writeArr (hierarchyNodesGetter [[1, 2]] 0).2 (hierarchyNodesGetter [[1, 2]] 0).1 [9]) 0
        = readArr [[1, 2]] 0) :=
  C10_getters_return_fresh_shallow_copies [[1, 2]] 0 (by decide) [9]

theorem everyCompat_ok_true_iff (f : Forest) (p : Nat) (cs : List Nat) :
    everyCompat f p cs = Except.ok true ↔
      ∀ c ∈ cs, isBrandCompatible f c p = Except.ok true := by
  induction cs with
  | nil => simp [everyCompat]
  | cons c rest ih =>
    simp only [everyCompat, List.mem_cons, forall_eq_or_imp]
    cases h : isBrandCompatible f c p with
    | error e => simp [h]
    | ok b => cases b <;> simp [h, ih]

/-- C7: every failure precondition of Node.attach - an empty argument
list, an argument that already has a parent, or an argument that is not
brand-compatible with the target (including the case where the
compatibility check itself throws) - makes the call report an error while
leaving the whole forest, hence every parent pointer and child set,
exactly as it was: all arguments are checked before any mutation. -/
theorem C7_node_attach_failure_implies_error_and_no_mutation
    (f : Forest) (p : Nat) (cs : List Nat)
    (h : cs = [] ∨ (∃ c ∈ cs, isRoot f c = false) ∨
      (∃ c ∈ cs, isBrandCompatible f c p ≠ Except.ok true)) :
    ∃ e, nodeAttach f p cs = (Except.error e, f) := by
  by_cases hemp : cs.isEmpty
  · exact ⟨"Must provide one or more 'children'.", by simp [nodeAttach, hemp]⟩
  · by_cases hroot : (cs.all fun c => isRoot f c) = false
    · exact ⟨"Must all be without a 'parent' before attaching to another.",
        by simp [nodeAttach, hemp, hroot]⟩
    · have hcs : cs ≠ [] := by
        intro hc
        subst hc
        simp at hemp
      have hallroot : ∀ c ∈ cs, isRoot f c = true := by
        rw [Bool.not_eq_false] at hroot
        exact fun c hc => List.all_eq_true.mp hroot c hc
      rcases h with hc | ⟨c, hc, hr⟩ | ⟨c, hc, hb⟩
      · exact absurd hc hcs
      · rw [hallroot c hc] at hr
        cases hr
      · have hev : everyCompat f p cs ≠ Except.ok true := by
          intro hall
          rw [everyCompat_ok_true_iff] at hall
          exact hb (hall c hc)
        cases hcomp : everyCompat f p cs with
        | error e => exact ⟨e, by simp [nodeAttach, hemp, hroot, hcomp]⟩
        | ok b =>
          cases b with
          | false => exact ⟨"Must all have a compatible brand.",
              by simp [nodeAttach, hemp, hroot, hcomp]⟩
          | true => exact absurd hcomp hev

/-- Witness for C7: attaching an empty list reports an error and leaves
the forest unchanged. -/
theorem C7_node_attach_failure_witness :
    ∃ e, nodeAttach (fun _ => NodeData.fresh) 0 [] =
      (Except.error e, fun _ => NodeData.fresh) :=
  C7_node_attach_failure_implies_error_and_no_mutation
    (fun _ => NodeData.fresh) 0 [] (Or.inl rfl)

/-- C8: for distinct unbranded nodes `a` and `b` with `b` a root (hence
not among `a`'s children), `a.attach(b)` succeeds, the following
`b.detachSelf()` succeeds, and afterwards `b` is a root again and `a`'s
child set is exactly what it was before - i.e. it excludes `b`. -/
theorem C8_attach_then_detachSelf_restores (f : Forest) (a b : Nat) (hab : a ≠ b)
    (hbroot : (f b).parent = none) (habrand : (f a).brand = none)
    (hbbrand : (f b).brand = none) (hmem : b ∉ (f a).childList) :
    (nodeAttach f a [b]).1 = Except.ok () ∧
    (nodeDetachSelf (nodeAttach f a [b]).2 b).1 = Except.ok () ∧
    ((nodeDetachSelf (nodeAttach f a [b]).2 b).2 b).parent = none ∧
    ((nodeDetachSelf (nodeAttach f a [b]).2 b).2 a).childList = (f a).childList := by
  have hba : b ≠ a := Ne.symm hab
  have hAtt : nodeAttach f a [b] = (Except.ok (), linkChild f a b) := by
    simp [nodeAttach, isRoot, hbroot, everyCompat, isBrandCompatible, hbbrand, habrand]
  have hfb1 : (linkChild f a b) b = { f b with parent := some a } := by
    simp [linkChild, setN, hba]
  have hfa1 : (linkChild f a b) a =
      { f a with childList := (f a).childList ++ [b] } := by
    simp [linkChild, setN, hab, addChildRef, hmem]
  have herase : ((f a).childList ++ [b]).erase b = (f a).childList := by
    rw [List.erase_append_right _ hmem]
    simp
  have hDet : nodeDetachSelf (linkChild f a b) b =
      (Except.ok (),
        setN (setN (linkChild f a b) a
            { (linkChild f a b) a with childList := ((linkChild f a b) a).childList.erase b })
          b { (setN (linkChild f a b) a
            { (linkChild f a b) a with childList := ((linkChild f a b) a).childList.erase b }) b
              with parent := none }) := by
    rw [nodeDetachSelf, hfb1]
    simp [hfb1, hfa1, hbbrand]
  rw [hAtt]
  refine ⟨rfl, ?_, ?_, ?_⟩
  · rw [hDet]
  · rw [hDet]
    simp [setN]
  · rw [hDet]
    simp [setN, hab, hfa1, herase]

/-- Witness for C8: node 0 with an existing child 5 attaches the fresh
root 1 and detaches it again. -/
theorem C8_attach_then_detachSelf_witness :
    (nodeAttach C8exampleForest 0 [1]).1 = Except.ok () ∧
    (nodeDetachSelf (nodeAttach C8exampleForest 0 [1]).2 1).1 = Except.ok () ∧
    ((nodeDetachSelf (nodeAttach C8exampleForest 0 [1]).2 1).2 1).parent = none ∧
    ((nodeDetachSelf (nodeAttach C8exampleForest 0 [1]).2 1).2 0).childList =
      (C8exampleForest 0).childList :=
  C8_attach_then_detachSelf_restores C8exampleForest 0 1 (by decide) rfl rfl rfl (by decide)

theorem tgnInternal_nil (s : GraphSignal) (h : s.buf = []) :
    s.tryGetNextInternal = (none, s) := by
  simp [GraphSignal.tryGetNextInternal, bufDetach, h]

theorem tgnInternal_cons (s : GraphSignal) (v : Nat) (rest : List Nat)
    (hb : s.buf = v :: rest) (hd : s.isDepthFirst = false) :
    ∃ s2, s.tryGetNextInternal = (some v, s2) ∧ s2.buf = rest ∧
      s2.visited = s.visited ∧ s2.isDepthFirst = false ∧ s2.skipped = false := by
  refine ⟨(s.tryGetNextInternal).2, ?_⟩
  simp only [GraphSignal.tryGetNextInternal, bufDetach, hb, hd]
  split <;> simp
  split <;> simp

theorem tryGetNextLoop_spec :
    ∀ (fuel : Nat) (s : GraphSignal) (vs : List Nat),
      s.buf.length ≤ fuel → s.isDepthFirst = false →
      (pullFresh vs s.buf = none → (tryGetNextLoop fuel s vs).1 = none) ∧
      (∀ v rest, pullFresh vs s.buf = some (v, rest) →
        ∃ s1, tryGetNextLoop fuel s vs = (some v, s1) ∧ s1.buf = rest ∧
          s1.visited = some (v :: vs) ∧ s1.isDepthFirst = false ∧
          s1.skipped = false) := by
  intro fuel
  induction fuel with
  | zero =>
    intro s vs hlen _
    have hb : s.buf = [] := List.length_eq_zero.mp (Nat.le_zero.mp hlen)
    rw [hb]
    exact ⟨fun _ => rfl, fun v rest hp => by simp [pullFresh] at hp⟩
  | succ n ih =>
    intro s vs hlen hd
    cases hb : s.buf with
    | nil =>
      constructor
      · intro _
        simp [tryGetNextLoop, tgnInternal_nil s hb]
      · intro v rest hp
        simp [pullFresh] at hp
    | cons x rest0 =>
      obtain ⟨s2, hint, hbuf2, hvis2, hdf2, hsk2⟩ := tgnInternal_cons s x rest0 hb hd
      by_cases hxv : x ∈ vs
      · have hlen2 : s2.buf.length ≤ n := by
          rw [hbuf2]
          have := hlen
          rw [hb] at this
          simpa using this
        obtain ⟨ihn, ihs⟩ := ih s2 vs hlen2 hdf2
        rw [hbuf2] at ihn ihs
        constructor
        · intro hp
          rw [pullFresh, if_pos hxv] at hp
          rw [tryGetNextLoop, hint]
          simp only [hxv, ite_true]
          exact ihn hp
        · intro v rest hp
          rw [pullFresh, if_pos hxv] at hp
          rw [tryGetNextLoop, hint]
          simp only [hxv, ite_true]
          exact ihs v rest hp
      · constructor
        · intro hp
          rw [pullFresh, if_neg hxv] at hp
          cases hp
        · intro v rest hp
          rw [pullFresh, if_neg hxv] at hp
          injection hp with hp2
          injection hp2 with hx hr
          subst hx
          subst hr
          refine ⟨{ s2 with visited := some (x :: vs) }, ?_, hbuf2, rfl, hdf2, hsk2⟩
          rw [tryGetNextLoop, hint]
          simp only [hxv, ite_false]

theorem tryGetNext_spec (s : GraphSignal) (vs : List Nat)
    (hv : s.visited = some vs) (hd : s.isDepthFirst = false) :
    (pullFresh vs s.buf = none → (s.tryGetNext).1 = none) ∧
    (∀ v rest, pullFresh vs s.buf = some (v, rest) →
      ∃ s1, s.tryGetNext = (some v, s1) ∧ s1.buf = rest ∧
        s1.visited = some (v :: vs) ∧ s1.isDepthFirst = false ∧
        s1.skipped = false) := by
  have : s.tryGetNext = tryGetNextLoop s.buf.length s vs := by
    simp [GraphSignal.tryGetNext, hv]
  rw [this]
  exact tryGetNextLoop_spec s.buf.length s vs (Nat.le_refl _) hd

theorem signalNext_fields (s : GraphSignal) (nodes : List Nat)
    (hd : s.isDepthFirst = false) :
    (s.signalNext nodes).buf = s.buf ++ nodes ∧
    (s.signalNext nodes).visited = s.visited ∧
    (s.signalNext nodes).isDepthFirst = false ∧
    (s.signalNext nodes).skipped = s.skipped := by
  simp [GraphSignal.signalNext, bufAttach, hd]

theorem cleanup_fields (s : GraphSignal) (hd : s.isDepthFirst = false) :
    (s.cleanup).buf = s.buf ∧ (s.cleanup).visited = s.visited ∧
    (s.cleanup).isDepthFirst = false ∧ (s.cleanup).skipped = s.skipped := by
  by_cases hsk : s.skipped <;> simp [GraphSignal.cleanup, hd, hsk]

theorem traverseLoop_eq_bfsRef (next : Nat → List Nat) :
    ∀ (fuel : Nat) (s : GraphSignal) (vs : List Nat),
      s.visited = some vs → s.isDepthFirst = false → s.skipped = false →
      traverseLoop next fuel s = bfsRef next fuel s.buf vs := by
  intro fuel
  induction fuel with
  | zero => intros; rfl
  | succ n ih =>
    intro s vs hv hd hsk
    obtain ⟨h1, h2⟩ := tryGetNext_spec s vs hv hd
    cases hp : pullFresh vs s.buf with
    | none =>
      have hnone := h1 hp
      rw [traverseLoop, bfsRef, hp]
      cases hg : s.tryGetNext with
      | mk o s1 =>
        rw [hg] at hnone
        cases o with
        | none => rfl
        | some v => simp at hnone
    | some p =>
      obtain ⟨v, rest⟩ := p
      obtain ⟨s1, hg, hbuf, hvis, hdf, hskip⟩ := h2 v rest hp
      rw [traverseLoop, bfsRef, hp, hg]
      obtain ⟨hnb, hnv, hnd, hns⟩ := signalNext_fields s1 (next v) hdf
      obtain ⟨hcb, hcv, hcd, hcs⟩ := cleanup_fields (s1.signalNext (next v)) hnd
      have hyield : (s1.signalNext (next v)).shouldYield = true := by
        rw [GraphSignal.shouldYield, hns, hskip]
        rfl
      simp only [hyield, if_true, List.singleton_append]
      rw [ih ((s1.signalNext (next v)).cleanup) (v :: vs)
            (by rw [hcv, hnv, hvis]) hcd (by rw [hcs, hns, hskip])]
      rw [hcb, hnb, hbuf]

theorem pullFresh_none_spec (vs : List Nat) :
    ∀ buf, pullFresh vs buf = none → ∀ x ∈ buf, x ∈ vs := by
  intro buf
  induction buf with
  | nil => intro _ x hx; cases hx
  | cons y rest ih =>
    intro hp x hx
    rw [pullFresh] at hp
    by_cases hy : y ∈ vs
    · rw [if_pos hy] at hp
      rcases List.mem_cons.mp hx with hx | hx
      · exact hx ▸ hy
      · exact ih hp x hx
    · rw [if_neg hy] at hp
      cases hp

theorem pullFresh_some_spec (vs : List Nat) :
    ∀ buf v rest, pullFresh vs buf = some (v, rest) →
      v ∉ vs ∧ v ∈ buf ∧ (∀ x ∈ buf, x = v ∨ x ∈ rest ∨ x ∈ vs) ∧
        (∀ x ∈ rest, x ∈ buf) := by
  intro buf
  induction buf with
  | nil => intro v rest hp; cases hp
  | cons y rest0 ih =>
    intro v rest hp
    rw [pullFresh] at hp
    by_cases hy : y ∈ vs
    · rw [if_pos hy] at hp
      obtain ⟨hnv, hmem, hcover, hsub⟩ := ih v rest hp
      refine ⟨hnv, List.mem_cons_of_mem y hmem, ?_, ?_⟩
      · intro x hx
        rcases List.mem_cons.mp hx with hx | hx
        · exact Or.inr (Or.inr (hx ▸ hy))
        · exact hcover x hx
      · intro x hx
        exact List.mem_cons_of_mem y (hsub x hx)
    · rw [if_neg hy] at hp
      injection hp with hp2
      injection hp2 with hv hr
      subst hv
      subst hr
      refine ⟨hy, List.mem_cons_self _ _, ?_, fun x hx => List.mem_cons_of_mem _ hx⟩
      intro x hx
      rcases List.mem_cons.mp hx with hx | hx
      · exact Or.inl hx
      · exact Or.inr (Or.inl hx)

theorem bfsRef_nodup_fresh (next : Nat → List Nat) :
    ∀ (fuel : Nat) (buf vs : List Nat),
      (bfsRef next fuel buf vs).Nodup ∧
        ∀ x ∈ bfsRef next fuel buf vs, x ∉ vs := by
  intro fuel
  induction fuel with
  | zero => intro buf vs; simp [bfsRef]
  | succ n ih =>
    intro buf vs
    rw [bfsRef]
    cases hp : pullFresh vs buf with
    | none => simp
    | some p =>
      obtain ⟨v, rest⟩ := p
      obtain ⟨hnotin, _, _, _⟩ := pullFresh_some_spec vs buf v rest hp
      obtain ⟨ihn, ihf⟩ := ih (rest ++ next v) (v :: vs)
      constructor
      · refine List.nodup_cons.mpr ⟨fun hmem => ?_, ihn⟩
        exact (ihf v hmem) (List.mem_cons_self v vs)
      · intro x hx
        rcases List.mem_cons.mp hx with hx | hx
        · exact hx ▸ hnotin
        · intro hxvs
          exact (ihf x hx) (List.mem_cons_of_mem v hxvs)

theorem ReachG_mono (next : Nat → List Nat) (r1 r2 : List Nat)
    (hsub : ∀ x ∈ r1, x ∈ r2) : ∀ v, ReachG next r1 v → ReachG next r2 v := by
  intro v h
  induction h with
  | root w hw => exact ReachG.root w (hsub w hw)
  | step u w _ hw ihw => exact ReachG.step u w ihw hw

theorem sdiff_toFinset_cons (univ vs : List Nat) (v : Nat) :
    univ.toFinset \ (v :: vs).toFinset = (univ.toFinset \ vs.toFinset).erase v := by
  ext x
  simp only [Finset.mem_sdiff, Finset.mem_erase, List.toFinset_cons,
    Finset.mem_insert, List.mem_toFinset]
  tauto

theorem bfsRef_complete (next : Nat → List Nat) (univ : List Nat)
    (hnext : ∀ u, ∀ c ∈ next u, c ∈ univ) :
    ∀ (fuel : Nat) (buf vs : List Nat),
      (∀ x ∈ buf, x ∈ univ) →
      (∀ u ∈ vs, ∀ c ∈ next u, c ∈ vs ∨ c ∈ buf) →
      (univ.toFinset \ vs.toFinset).card < fuel →
      ∀ v, ReachG next (buf ++ vs) v →
        v ∈ bfsRef next fuel buf vs ∨ v ∈ vs := by
  intro fuel
  induction fuel with
  | zero =>
    intro buf vs _ _ hcard
    exact absurd hcard (Nat.not_lt_zero _)
  | succ n ih =>
    intro buf vs hbufu hclosed hcard v hreach
    rw [bfsRef]
    cases hp : pullFresh vs buf with
    | none =>
      have hall : ∀ x ∈ buf, x ∈ vs := pullFresh_none_spec vs buf hp
      right
      induction hreach with
      | root w hw =>
        rcases List.mem_append.mp hw with hw | hw
        · exact hall w hw
        · exact hw
      | step u w hu hw ihu =>
        rcases hclosed u ihu w hw with hw2 | hw2
        · exact hw2
        · exact hall w hw2
    | some p =>
      obtain ⟨v0, rest⟩ := p
      obtain ⟨hv0notin, hv0mem, hcover, hrestsub⟩ := pullFresh_some_spec vs buf v0 rest hp
      have hbufu1 : ∀ x ∈ rest ++ next v0, x ∈ univ := by
        intro x hx
        rcases List.mem_append.mp hx with hx | hx
        · exact hbufu x (hrestsub x hx)
        · exact hnext v0 x hx
      have hclosed1 : ∀ u ∈ v0 :: vs, ∀ c ∈ next u, c ∈ v0 :: vs ∨ c ∈ rest ++ next v0 := by
        intro u hu c hc
        rcases List.mem_cons.mp hu with hu | hu
        · subst hu
          exact Or.inr (List.mem_append.mpr (Or.inr hc))
        · rcases hclosed u hu c hc with hc2 | hc2
          · exact Or.inl (List.mem_cons_of_mem v0 hc2)
          · rcases hcover c hc2 with hc3 | hc3 | hc3
            · exact Or.inl (hc3 ▸ List.mem_cons_self v0 vs)
            · exact Or.inr (List.mem_append.mpr (Or.inl hc3))
            · exact Or.inl (List.mem_cons_of_mem v0 hc3)
      have hv0diff : v0 ∈ univ.toFinset \ vs.toFinset := by
        rw [Finset.mem_sdiff]
        exact ⟨List.mem_toFinset.mpr (hbufu v0 hv0mem),
          fun hc => hv0notin (List.mem_toFinset.mp hc)⟩
      have hcard1 : (univ.toFinset \ (v0 :: vs).toFinset).card < n := by
        rw [sdiff_toFinset_cons]
        have h1 := Finset.card_erase_lt_of_mem hv0diff
        have h2 := Nat.lt_succ_iff.mp hcard
        exact Nat.lt_of_lt_of_le h1 h2
      have hreach1 : ReachG next ((rest ++ next v0) ++ (v0 :: vs)) v := by
        refine ReachG_mono next (buf ++ vs) _ ?_ v hreach
        intro x hx
        rcases List.mem_append.mp hx with hx | hx
        · rcases hcover x hx with hx2 | hx2 | hx2
          · exact List.mem_append.mpr (Or.inr (hx2 ▸ List.mem_cons_self v0 vs))
          · exact List.mem_append.mpr (Or.inl (List.mem_append.mpr (Or.inl hx2)))
          · exact List.mem_append.mpr (Or.inr (List.mem_cons_of_mem v0 hx2))
        · exact List.mem_append.mpr (Or.inr (List.mem_cons_of_mem v0 hx))
      rcases ih (rest ++ next v0) (v0 :: vs) hbufu1 hclosed1 hcard1 v hreach1 with h | h
      · exact Or.inl (List.mem_cons_of_mem v0 h)
      · rcases List.mem_cons.mp h with h | h
        · exact Or.inl (h ▸ List.mem_cons_self v0 _)
        · exact Or.inr h

theorem traverseGraph_cycles_eq_bfsRef (next : Nat → List Nat) (roots : List Nat)
    (fuel : Nat) :
    traverseGraph next roots true false fuel = bfsRef next fuel roots [] := by
  rw [traverseGraph]
  rw [traverseLoop_eq_bfsRef next fuel (GraphSignal.init roots true false) []
    (by simp [GraphSignal.init]) (by simp [GraphSignal.init]) (by simp [GraphSignal.init])]
  simp [GraphSignal.init, bufAttach]

/-- C5: with cycle detection enabled, the traversal of any finite graph
(finiteness given by a universe list closed under the edge function)
yields no node twice (so a node reached again through a back-edge is
silently discarded rather than re-yielded or reported as an error - the
model's driver has no error outcome at all), and every node reachable
from the roots is yielded; the output order is by construction the order
of first visits.  On the spec's concrete back-edge graph
root -> A -> B -> A the yield is exactly [root, A, B]. -/
theorem C5_cycle_detection_yields_each_reachable_node_once
    (next : Nat → List Nat) (univ roots : List Nat)
    (hroots : ∀ r ∈ roots, r ∈ univ) (hnext : ∀ u, ∀ c ∈ next u, c ∈ univ) :
    (traverseGraph next roots true false (univ.length + 1)).Nodup ∧
    (∀ v, ReachG next roots v →
      v ∈ traverseGraph next roots true false (univ.length + 1)) ∧
    traverseGraph cycNext [0] true false 4 = [0, 1, 2] := by
  rw [traverseGraph_cycles_eq_bfsRef]
  refine ⟨(bfsRef_nodup_fresh next (univ.length + 1) roots []).1, ?_, rfl⟩
  intro v hv
  have hcard : (univ.toFinset \ ([] : List Nat).toFinset).card < univ.length + 1 := by
    simp only [List.toFinset_nil, Finset.sdiff_empty]
    exact Nat.lt_succ_of_le univ.toFinset_card_le
  have hreach : ReachG next (roots ++ []) v := by
    rw [List.append_nil]
    exact hv
  rcases bfsRef_complete next univ hnext (univ.length + 1) roots [] hroots
      (by intro u hu; cases hu) hcard v hreach with h | h
  · exact h
  · cases h

/-- Witness for C5 at the concrete back-edge graph over universe
[0, 1, 2]. -/
theorem C5_cycle_detection_witness :
    (traverseGraph cycNext [0, 1, 2] true false 4).Nodup ∧
    (∀ v, ReachG cycNext [0, 1, 2] v →
      v ∈ traverseGraph cycNext [0, 1, 2] true false 4) ∧
    traverseGraph cycNext [0] true false 4 = [0, 1, 2] :=
  C5_cycle_detection_yields_each_reachable_node_once cycNext [0, 1, 2] [0, 1, 2]
    (fun r hr => hr)
    (by
      intro u c hc
      by_cases h0 : u = 0
      · rw [cycNext] at hc
        simp [h0] at hc
        simp [hc]
      · by_cases h1 : u = 1
        · rw [cycNext] at hc
          simp [h0, h1] at hc
          simp [hc]
        · by_cases h2 : u = 2
          · rw [cycNext] at hc
            simp [h0, h1, h2] at hc
            simp [hc]
          · rw [cycNext] at hc
            simp [h0, h1, h2] at hc)
